import Mathlib

set_option maxHeartbeats 1000000

/- Shallow embedding of src/index.ts (earchive backend).  The in-memory
   repository `documents` is modelled as a `List Document`; each HTTP handler
   becomes a pure function over that list.  ISO timestamp strings are
   modelled as natural numbers (ISO strings compare chronologically). -/

/-- One entry of a document audit trail.  The initial entry built by the
upload handler (index.ts lines 173-178) carries only `user` and `changes`;
entries built by the PUT handler (lines 288-296) also carry `version` and
`date`, hence the two `Option` fields. -/
structure HistoryEntry where
  version : Option Nat
  date : Option Nat
  user : String
  changes : String
deriving DecidableEq

/-- A document record exactly as assembled by the POST /api/documents handler
(index.ts lines 156-179).  `title`, `description`, `category`, `department`
and `confidentiality` are destructured from the request body without
validation, so each may be undefined: they are `Option String`. -/
structure Document where
  id : String
  title : Option String
  description : Option String
  category : Option String
  department : Option String
  confidentiality : Option String
  tags : List String
  fileName : String
  originalName : String
  filePath : String
  fileSize : Nat
  fileType : String
  uploadDate : Nat
  status : String
  version : Nat
  uploadedBy : String
  history : List HistoryEntry
deriving DecidableEq

/-- The metadata fields destructured from the upload request body
(index.ts line 154); every field may be absent. -/
structure UploadMeta where
  title : Option String
  description : Option String
  category : Option String
  department : Option String
  confidentiality : Option String
  tags : Option String
deriving DecidableEq

/-- The multer file object consumed by the upload handler (`req.file`). -/
structure UploadFile where
  filename : String
  originalname : String
  size : Nat
  mimetype : String
deriving DecidableEq

/-- The initial history entry pushed at creation (index.ts lines 173-178).
It has no `version` and, notably, no `date` field. -/
def iuEntry : HistoryEntry :=
  { version := none, date := none, user := "Ahmed Mohamud", changes := "Initial upload" }

/-- The new-document record built by POST /api/documents (index.ts lines
156-179).  `now` models `Date.now()`; the id is the template literal
`DOC-${Date.now()}`.  `tags ? tags.split(",").map(trim) : []` treats an
absent or empty string as falsy. -/
def createDocument (now : Nat) (meta : UploadMeta) (file : UploadFile) : Document :=
  { id := "DOC-" ++ toString now
    title := meta.title
    description := meta.description
    category := meta.category
    department := meta.department
    confidentiality := meta.confidentiality
    tags := match meta.tags with
      | none => []
      | some s => if s.isEmpty then [] else (s.splitOn ",").map String.trim
    fileName := file.filename
    originalName := file.originalname
    filePath := "/uploads/" ++ file.filename
    fileSize := file.size
    fileType := file.mimetype
    uploadDate := now
    status := "pending"
    version := 1
    uploadedBy := "Ahmed Mohamud"
    history := [iuEntry] }

/-- GET /api/documents/:id (index.ts lines 229-235): first document whose id
matches, else a 404. -/
def getDocument (docs : List Document) (id : String) : Option Document :=
  docs.find? (fun d => d.id == id)

/-- Sample upload metadata used for concrete evaluations. -/
def m0 : UploadMeta :=
  { title := some "Report", description := some "Annual report"
    category := some "finance", department := some "ops"
    confidentiality := none, tags := none }

/-- Second sample upload metadata, differing from `m0`. -/
def m1 : UploadMeta :=
  { title := some "Memo", description := some "Legal memo"
    category := some "legal", department := none
    confidentiality := some "secret", tags := none }

/-- Sample uploaded file of size 1000. -/
def f0 : UploadFile :=
  { filename := "100-a.pdf", originalname := "a.pdf", size := 1000
    mimetype := "application/pdf" }

/-- Sample uploaded file of size 2000. -/
def f1 : UploadFile :=
  { filename := "200-b.pdf", originalname := "b.pdf", size := 2000
    mimetype := "application/pdf" }

/-- C6 (counterexample): two uploads handled in the same millisecond receive
the same id `DOC-${Date.now()}`, so the second id is not fresh: the claim
that every creation produces a fresh unique id fails at this concrete
input (there is no fallback counter in the code). -/
theorem c6_counterexample_duplicate_id :
    (createDocument 100 m0 f0).id = (createDocument 100 m1 f1).id ∧
    createDocument 100 m0 f0 ≠ createDocument 100 m1 f1 := by
  constructor
  · rfl
  · decide

/-- C6 (amended): every creation yields `version = 1`, `status = "pending"`
and a one-entry history whose entry says "Initial upload"; the id
`DOC-${now}` is unique among the existing documents provided no existing
document carries the same creation timestamp (same-millisecond uploads
collide, as the counterexample shows). -/
theorem c6_create_amended (docs : List Document) (now : Nat)
    (meta : UploadMeta) (file : UploadFile)
    (hfresh : ∀ d ∈ docs, d.id ≠ "DOC-" ++ toString now) :
    (createDocument now meta file).version = 1 ∧
    (createDocument now meta file).status = "pending" ∧
    (createDocument now meta file).history = [iuEntry] ∧
    (createDocument now meta file).history.length = 1 ∧
    iuEntry.changes = "Initial upload" ∧
    ∀ d ∈ docs, d.id ≠ (createDocument now meta file).id := by
  refine ⟨rfl, rfl, rfl, rfl, rfl, ?_⟩
  intro d hd
  exact hfresh d hd

/-- C6 (witness): the amended theorem applied to a concrete one-document
repository and a fresh timestamp. -/
theorem c6_create_amended_witness :
    (createDocument 200 m1 f1).version = 1 ∧
    (createDocument 200 m1 f1).status = "pending" ∧
    (createDocument 100 m0 f0).id ≠ (createDocument 200 m1 f1).id := by
  have h := c6_create_amended [createDocument 100 m0 f0] 200 m1 f1 (by decide)
  exact ⟨h.1, h.2.1, h.2.2.2.2.2 (createDocument 100 m0 f0) (by simp)⟩

/-- A PUT /api/documents/:id request body (index.ts line 286 spreads the
whole body over the record).  Each field is `none` when the key is absent.
`version` and `history` keys may be present but the handler overwrites
both after the spread (lines 287-296), so they are discarded. -/
structure UpdatePayload where
  id : Option String
  title : Option String
  description : Option String
  category : Option String
  department : Option String
  confidentiality : Option String
  tags : Option (List String)
  fileName : Option String
  originalName : Option String
  filePath : Option String
  fileSize : Option Nat
  fileType : Option String
  uploadDate : Option Nat
  status : Option String
  uploadedBy : Option String
  version : Option Nat
  history : Option (List HistoryEntry)
deriving DecidableEq

/-- The empty request body: every key absent. -/
def emptyPayload : UpdatePayload :=
  { id := none, title := none, description := none, category := none
    department := none, confidentiality := none, tags := none
    fileName := none, originalName := none, filePath := none
    fileSize := none, fileType := none, uploadDate := none
    status := none, uploadedBy := none, version := none, history := none }

/-- The history entry prepended by the PUT handler (index.ts lines 289-294). -/
def muEntry (v t : Nat) : HistoryEntry :=
  { version := some v, date := some t, user := "Ahmed Mohamud"
    changes := "Metadata updated" }

/-- Merge of an `Option`-typed payload field over an `Option`-typed record
field: a key present in the body overrides the stored value. -/
def mergeOpt (p o : Option String) : Option String :=
  match p with
  | some v => some v
  | none => o

/-- The updated record built by the PUT handler (index.ts lines 281-297):
`{...originalDocument, ...req.body, version: newVersion, history: [new,
...old]}`.  Every key present in the body overrides the stored field -
including `id` and the file attributes - while `version` and `history` are
recomputed after the spread. -/
def applyUpdate (now : Nat) (d : Document) (p : UpdatePayload) : Document :=
  { id := p.id.getD d.id
    title := mergeOpt p.title d.title
    description := mergeOpt p.description d.description
    category := mergeOpt p.category d.category
    department := mergeOpt p.department d.department
    confidentiality := mergeOpt p.confidentiality d.confidentiality
    tags := p.tags.getD d.tags
    fileName := p.fileName.getD d.fileName
    originalName := p.originalName.getD d.originalName
    filePath := p.filePath.getD d.filePath
    fileSize := p.fileSize.getD d.fileSize
    fileType := p.fileType.getD d.fileType
    uploadDate := p.uploadDate.getD d.uploadDate
    status := p.status.getD d.status
    uploadedBy := p.uploadedBy.getD d.uploadedBy
    version := d.version + 1
    history := muEntry (d.version + 1) now :: d.history }

/-- `findIndex` followed by an assignment at that index, expressed as a
first-match recursion: returns the new list and the new record, or `none`
when no element matches (the 404 branch). -/
def updateFirst (f : Document → Bool) (g : Document → Document) :
    List Document → Option (List Document × Document)
  | [] => none
  | d :: ds =>
    if f d then some (g d :: ds, g d)
    else (updateFirst f g ds).map (fun r => (d :: r.1, r.2))

/-- PUT /api/documents/:id (index.ts lines 275-303). -/
def updateDocument (now : Nat) (docs : List Document) (id : String)
    (p : UpdatePayload) : Option (List Document × Document) :=
  updateFirst (fun d => d.id == id) (fun d => applyUpdate now d p) docs

/-- A sequence of successful metadata updates applied to one document:
each element carries the `Date.now()` of the request and its body. -/
def applyUpdates (d : Document) : List (Nat × UpdatePayload) → Document
  | [] => d
  | (t, p) :: us => applyUpdates (applyUpdate t d p) us

theorem applyUpdates_version (us : List (Nat × UpdatePayload)) :
    ∀ d : Document, (applyUpdates d us).version = d.version + us.length := by
  induction us with
  | nil => intro d; rfl
  | cons u us ih =>
    intro d
    obtain ⟨t, p⟩ := u
    have hv : (applyUpdate t d p).version = d.version + 1 := rfl
    show (applyUpdates (applyUpdate t d p) us).version = _
    rw [ih (applyUpdate t d p), hv, List.length_cons]
    omega

theorem applyUpdates_history (us : List (Nat × UpdatePayload)) :
    ∀ d : Document, (applyUpdates d us).history =
      ((List.range us.length).map
        (fun k => muEntry (d.version + 1 + k) ((us.getD k (0, emptyPayload)).1))).reverse
        ++ d.history := by
  induction us with
  | nil => intro d; simp [applyUpdates]
  | cons u us ih =>
    intro d
    obtain ⟨t, p⟩ := u
    have hv : (applyUpdate t d p).version = d.version + 1 := rfl
    have hh : (applyUpdate t d p).history = muEntry (d.version + 1) t :: d.history := rfl
    have hmap : List.map
        ((fun k => muEntry (d.version + 1 + k) (((t, p) :: us).getD k (0, emptyPayload)).1)
          ∘ Nat.succ) (List.range us.length)
        = List.map (fun k => muEntry (d.version + 1 + 1 + k) ((us.getD k (0, emptyPayload)).1))
          (List.range us.length) := by
      apply List.map_congr_left
      intro k _
      simp only [Function.comp_apply, List.getD_cons_succ, Nat.succ_eq_add_one]
      congr 1
      omega
    show (applyUpdates (applyUpdate t d p) us).history = _
    rw [ih (applyUpdate t d p), hv, hh, List.length_cons, List.range_succ_eq_map,
      List.map_cons, List.map_map, hmap, List.reverse_cons, List.append_assoc,
      List.singleton_append, List.getD_cons_zero]

theorem updateFirst_eq_some {f : Document → Bool} {g : Document → Document}
    {l l2 : List Document} {u : Document}
    (h : updateFirst f g l = some (l2, u)) :
    ∃ pre d post, l = pre ++ d :: post ∧ (∀ x ∈ pre, f x = false) ∧
      f d = true ∧ u = g d ∧ l2 = pre ++ g d :: post := by
  induction l generalizing l2 u with
  | nil => exact absurd h (by simp [updateFirst])
  | cons a l ih =>
    by_cases ha : f a
    · simp only [updateFirst, if_pos ha] at h
      have h2 := Option.some_inj.mp h
      have hl2 : l2 = g a :: l := (congrArg Prod.fst h2).symm
      have hu : u = g a := (congrArg Prod.snd h2).symm
      exact ⟨[], a, l, by simp, by simp, ha, hu, by simp [hl2]⟩
    · simp only [updateFirst, if_neg ha] at h
      rcases hrec : updateFirst f g l with _ | r
      · rw [hrec] at h; exact absurd h (by simp)
      · obtain ⟨ds, v⟩ := r
        rw [hrec] at h
        have h3 : some ((a :: ds, v) : List Document × Document) = some (l2, u) := h
        have h2 := Option.some_inj.mp h3
        have hds : l2 = a :: ds := (congrArg Prod.fst h2).symm
        have hu : u = v := (congrArg Prod.snd h2).symm
        obtain ⟨pre, d, post, hl, hpre, hd, huv, hds2⟩ := ih hrec
        refine ⟨a :: pre, d, post, by rw [hl]; rfl, ?_, hd, by rw [hu, huv], ?_⟩
        · intro x hx
          rcases List.mem_cons.mp hx with hx | hx
          · subst hx; simpa using ha
          · exact hpre x hx
        · rw [hds, hds2]; rfl

theorem find?_middle {f : Document → Bool} {pre post : List Document}
    {d : Document} (hpre : ∀ x ∈ pre, f x = false) (hd : f d = true) :
    List.find? f (pre ++ d :: post) = some d := by
  induction pre with
  | nil => simp [List.find?_cons, hd]
  | cons a pre ih =>
    have ha : f a = false := hpre a (by simp)
    simp only [List.cons_append, List.find?_cons, ha]
    exact ih (fun x hx => hpre x (by simp [hx]))

/-- C1: starting from a freshly created document, any sequence of N
successful metadata updates yields `version = 1 + N` and a history of
length `1 + N` that consists of the N "Metadata updated" entries newest
first (the k-th update contributes the entry with version `2 + k` and the
timestamp of that request) followed by the "Initial upload" entry; and
every successful PUT on an existing id applies exactly this update to the
document found by the lookup. -/
theorem c1_update_sequence (now : Nat) (meta : UploadMeta) (file : UploadFile)
    (us : List (Nat × UpdatePayload)) :
    (applyUpdates (createDocument now meta file) us).version = 1 + us.length ∧
    (applyUpdates (createDocument now meta file) us).history.length = 1 + us.length ∧
    (applyUpdates (createDocument now meta file) us).history =
      ((List.range us.length).map
        (fun k => muEntry (2 + k) ((us.getD k (0, emptyPayload)).1))).reverse
        ++ [iuEntry] ∧
    (∀ t docs id p r, updateDocument t docs id p = some r →
      ∃ d, getDocument docs id = some d ∧ r.2 = applyUpdate t d p) := by
  have hver := applyUpdates_version us (createDocument now meta file)
  have hhist := applyUpdates_history us (createDocument now meta file)
  have hcv : (createDocument now meta file).version = 1 := rfl
  have hch : (createDocument now meta file).history = [iuEntry] := rfl
  rw [hcv] at hver hhist
  have hhist2 : (applyUpdates (createDocument now meta file) us).history =
      ((List.range us.length).map
        (fun k => muEntry (2 + k) ((us.getD k (0, emptyPayload)).1))).reverse
        ++ [iuEntry] := by
    rw [hhist, hch]
  refine ⟨hver, ?_, hhist2, ?_⟩
  · rw [hhist2]
    simp only [List.length_append, List.length_reverse, List.length_map,
      List.length_range, List.length_singleton]
    omega
  · intro t docs id p r h
    obtain ⟨r1, r2⟩ := r
    obtain ⟨pre, d, post, hl, hpre, hd, hu, _⟩ := updateFirst_eq_some h
    refine ⟨d, ?_, hu⟩
    rw [hl]
    unfold getDocument
    exact find?_middle hpre hd

/-- C1 (witness): one concrete update on a freshly created document gives
version 2, and a concrete successful PUT applies `applyUpdate` to the
document the lookup finds. -/
theorem c1_update_sequence_witness :
    (applyUpdates (createDocument 10 m0 f0) [(20, emptyPayload)]).version = 2 ∧
    (applyUpdates (createDocument 10 m0 f0) [(20, emptyPayload)]).history.length = 2 ∧
    getDocument [createDocument 10 m0 f0] "DOC-10" = some (createDocument 10 m0 f0) := by
  have h := c1_update_sequence 10 m0 f0 [(20, emptyPayload)]
  have h4 := h.2.2.2 30 [createDocument 10 m0 f0] "DOC-10" emptyPayload
    ([applyUpdate 30 (createDocument 10 m0 f0) emptyPayload],
      applyUpdate 30 (createDocument 10 m0 f0) emptyPayload)
    rfl
  obtain ⟨d, hd, _⟩ := h4
  have hg : getDocument [createDocument 10 m0 f0] "DOC-10" =
      some (createDocument 10 m0 f0) := rfl
  exact ⟨h.1, h.2.1, hg⟩

/-- A request body carrying values for the id and file attribute keys. -/
def evilPayload : UpdatePayload :=
  { emptyPayload with
    id := some "EVIL"
    fileName := some "other.bin"
    fileSize := some 9 }

/-- C2: the PUT handler spreads the whole request body over the stored
record, so a body that carries `id`, `fileName` or `fileSize` overwrites
those supposedly immutable fields: nothing is filtered out or ignored.
Evaluated at the failing input: updating `DOC-100` with body
`{id: "EVIL", fileName: "other.bin", fileSize: 9}` succeeds and mutates
all three fields. -/
theorem c2_update_overwrites_id_and_file :
    (createDocument 100 m0 f0).id = "DOC-100" ∧
    (createDocument 100 m0 f0).fileName = "100-a.pdf" ∧
    (createDocument 100 m0 f0).fileSize = 1000 ∧
    ∃ docs2 u,
      updateDocument 200 [createDocument 100 m0 f0] "DOC-100" evilPayload =
        some (docs2, u) ∧
      u.id = "EVIL" ∧ u.fileName = "other.bin" ∧ u.fileSize = 9 := by
  exact ⟨rfl, rfl, rfl,
    [applyUpdate 200 (createDocument 100 m0 f0) evilPayload],
    applyUpdate 200 (createDocument 100 m0 f0) evilPayload,
    rfl, rfl, rfl, rfl⟩

/-- The three outcomes of the PATCH status handler: 400, 404, or 200 with
the updated record. -/
inductive StatusResp where
  | invalid
  | notFound
  | ok (d : Document)
deriving DecidableEq

/-- PATCH /api/documents/:id/status (index.ts lines 306-320): the status
value is validated against `["approved", "rejected"]` BEFORE the id lookup;
on success only the `status` field of the first matching record is
assigned. -/
def setStatus (docs : List Document) (id st : String) : StatusResp × List Document :=
  if !(["approved", "rejected"].contains st) then (.invalid, docs)
  else
    match updateFirst (fun d => d.id == id) (fun d => { d with status := st }) docs with
    | none => (.notFound, docs)
    | some (docs2, u) => (.ok u, docs2)

/-- C3: for every repository state, every id (unknown ids included) and
every status value outside {approved, rejected}, the PATCH handler answers
InvalidInput - not NotFound - and returns the state unchanged: the validity
check runs before the lookup and nothing is mutated. -/
theorem c3_invalid_status_checked_first (docs : List Document) (id st : String)
    (h1 : st ≠ "approved") (h2 : st ≠ "rejected") :
    setStatus docs id st = (.invalid, docs) := by
  have hb1 : (st == "approved") = false := beq_eq_false_iff_ne.mpr h1
  have hb2 : (st == "rejected") = false := beq_eq_false_iff_ne.mpr h2
  have hc : (["approved", "rejected"].contains st) = false := by
    simp [List.contains, List.elem, hb1, hb2]
  rw [setStatus, hc]
  rfl

/-- C3 (witness): the status "archived" on an id that is not even present
yields InvalidInput and an unchanged repository. -/
theorem c3_invalid_status_checked_first_witness :
    setStatus [createDocument 100 m0 f0] "DOC-999" "archived" =
      (.invalid, [createDocument 100 m0 f0]) :=
  c3_invalid_status_checked_first [createDocument 100 m0 f0] "DOC-999" "archived"
    (by decide) (by decide)

/-- C8: a successful status update with a valid value replaces the first
matching record by the same record with only `status` reassigned: all
other documents are untouched and the version, history and every other
field of the updated record are unchanged. -/
theorem c8_set_status_only_status (docs docs2 : List Document) (id st : String)
    (u : Document) (hval : st = "approved" ∨ st = "rejected")
    (h : setStatus docs id st = (.ok u, docs2)) :
    ∃ pre d post, docs = pre ++ d :: post ∧
      (∀ x ∈ pre, (x.id == id) = false) ∧ (d.id == id) = true ∧
      u = { d with status := st } ∧
      docs2 = pre ++ { d with status := st } :: post ∧
      u.version = d.version ∧ u.history = d.history ∧ u.id = d.id ∧
      u.title = d.title ∧ u.description = d.description ∧
      u.fileName = d.fileName ∧ u.fileSize = d.fileSize ∧
      u.status = st := by
  have hc : (["approved", "rejected"].contains st) = true := by
    rcases hval with rfl | rfl <;> rfl
  rw [setStatus, hc] at h
  simp only [Bool.not_true, Bool.false_eq_true, if_false] at h
  rcases hrec : updateFirst (fun d => d.id == id)
      (fun d => { d with status := st }) docs with _ | r
  · rw [hrec] at h
    exact absurd (congrArg Prod.fst h) (by simp)
  · obtain ⟨ds, v⟩ := r
    rw [hrec] at h
    have hu : u = v := by
      have := congrArg Prod.fst h
      simpa using this.symm
    have hds : docs2 = ds := (congrArg Prod.snd h).symm
    obtain ⟨pre, d, post, hl, hpre, hd, huv, hds2⟩ := updateFirst_eq_some hrec
    subst hu
    subst huv
    exact ⟨pre, d, post, hl, hpre, hd, rfl, by rw [hds, hds2], rfl, rfl, rfl,
      rfl, rfl, rfl, rfl, rfl⟩

/-- C8 (witness): approving the only document of a concrete repository
keeps its version and history and sets its status. -/
theorem c8_set_status_only_status_witness :
    ∃ u docs2, setStatus [createDocument 100 m0 f0] "DOC-100" "approved" =
      (.ok u, docs2) ∧ u.version = 1 ∧ u.history = [iuEntry] ∧
      u.status = "approved" := by
  have h := c8_set_status_only_status [createDocument 100 m0 f0]
    [{ createDocument 100 m0 f0 with status := "approved" }] "DOC-100" "approved"
    { createDocument 100 m0 f0 with status := "approved" } (Or.inl rfl) rfl
  obtain ⟨pre, d, post, hdocs, _, _, hu, _, hver, hhist, _⟩ := h
  have hd : d = createDocument 100 m0 f0 := by
    cases pre with
    | nil =>
      have := (List.cons.injEq _ _ _ _).mp hdocs.symm
      exact this.1
    | cons a pre2 =>
      have := (List.cons.injEq _ _ _ _).mp hdocs.symm
      exact absurd this.2 (by simp)
  refine ⟨{ createDocument 100 m0 f0 with status := "approved" },
    [{ createDocument 100 m0 f0 with status := "approved" }], rfl, ?_, ?_, rfl⟩
  · rw [hver, hd]; rfl
  · rw [hhist, hd]; rfl

/-- `findIndex` followed by `splice(i, 1)`, expressed as first-match
recursion: the remaining list and the removed record, or `none` when no
element matches (the 404 branch). -/
def deleteFirst (f : Document → Bool) : List Document → Option (List Document × Document)
  | [] => none
  | d :: ds =>
    if f d then some (ds, d)
    else (deleteFirst f ds).map (fun r => (d :: r.1, r.2))

/-- The two outcomes of the DELETE handler: 404 or 204. -/
inductive DeleteResp where
  | notFound
  | noContent
deriving DecidableEq

/-- DELETE /api/documents/:id (index.ts lines 253-272).  `blobFails` models
whether `fs.unlink` reports an error for the physical file; the callback
only logs that error, so the record removal and the 204 response do not
depend on it.  The Bool in the result records whether an error was
logged. -/
def deleteDocument (docs : List Document) (id : String) (blobFails : Bool) :
    DeleteResp × List Document × Bool :=
  match deleteFirst (fun d => d.id == id) docs with
  | none => (.notFound, docs, false)
  | some (docs2, _) => (.noContent, docs2, blobFails)

theorem deleteFirst_eq_some {f : Document → Bool} {l l2 : List Document}
    {u : Document} (h : deleteFirst f l = some (l2, u)) :
    ∃ pre d post, l = pre ++ d :: post ∧ (∀ x ∈ pre, f x = false) ∧
      f d = true ∧ u = d ∧ l2 = pre ++ post := by
  induction l generalizing l2 u with
  | nil => exact absurd h (by simp [deleteFirst])
  | cons a l ih =>
    by_cases ha : f a
    · simp only [deleteFirst, if_pos ha] at h
      have h2 := Option.some_inj.mp h
      have hl2 : l2 = l := (congrArg Prod.fst h2).symm
      have hu : u = a := (congrArg Prod.snd h2).symm
      exact ⟨[], a, l, by simp, by simp, ha, hu, by simp [hl2]⟩
    · simp only [deleteFirst, if_neg ha] at h
      rcases hrec : deleteFirst f l with _ | r
      · rw [hrec] at h; exact absurd h (by simp)
      · obtain ⟨ds, v⟩ := r
        rw [hrec] at h
        have h3 : some ((a :: ds, v) : List Document × Document) = some (l2, u) := h
        have h2 := Option.some_inj.mp h3
        have hds : l2 = a :: ds := (congrArg Prod.fst h2).symm
        have hu : u = v := (congrArg Prod.snd h2).symm
        obtain ⟨pre, d, post, hl, hpre, hd, huv, hds2⟩ := ih hrec
        refine ⟨a :: pre, d, post, by rw [hl]; rfl, ?_, hd, by rw [hu, huv], ?_⟩
        · intro x hx
          rcases List.mem_cons.mp hx with hx | hx
          · subst hx; simpa using ha
          · exact hpre x hx
        · rw [hds, hds2]; rfl

/-- Char-list comparison: does the second list start with the first? -/
def leadsWith : List Char → List Char → Bool
  | [], _ => true
  | _ :: _, [] => false
  | a :: as, b :: bs => (a == b) && leadsWith as bs

/-- Substring occurrence over char lists (semantics of JS `includes`). -/
def hasInfix (needle : List Char) : List Char → Bool
  | [] => needle.isEmpty
  | c :: cs => leadsWith needle (c :: cs) || hasInfix needle cs

/-- JS `hay.toLowerCase().includes(needle)` where `needle` is the already
lowercased search term (index.ts line 193). -/
def strIncludes (hay needle : String) : Bool :=
  hasInfix needle.toList hay.toLower.toList

/-- The free-text predicate of the q filter (index.ts lines 194-198):
`doc.title.toLowerCase().includes(s) || doc.description.toLowerCase()
.includes(s) || doc.tags.some(t => t.toLowerCase().includes(s))`.
Evaluating `toLowerCase` on an absent field throws, which `none` models;
the short-circuit of `||` is preserved, so a matching title masks a
missing description. -/
def matchesQ (searchTerm : String) (d : Document) : Option Bool :=
  match d.title with
  | none => none
  | some t =>
    if strIncludes t searchTerm then some true
    else
      match d.description with
      | none => none
      | some ds =>
        if strIncludes ds searchTerm then some true
        else some (d.tags.any (fun tg => strIncludes tg searchTerm))

/-- `Array.prototype.filter` with a predicate that can throw: the first
element on which the predicate throws aborts the whole filter. -/
def filterSome (p : Document → Option Bool) : List Document → Option (List Document)
  | [] => some []
  | d :: ds =>
    match p d with
    | none => none
    | some b => (filterSome p ds).map (fun r => if b then d :: r else r)

/-- The optional query parameters of GET /api/documents (index.ts line
188).  Date parameters are modelled as parsed timestamps. -/
structure Criteria where
  q : Option String
  category : Option String
  department : Option String
  status : Option String
  confidentiality : Option String
  dateFrom : Option Nat
  dateTo : Option Nat
deriving DecidableEq

/-- A query string with no parameters at all. -/
def emptyCriteria : Criteria :=
  { q := none, category := none, department := none, status := none
    confidentiality := none, dateFrom := none, dateTo := none }

/-- JS truthiness of an optional string query parameter: `if (q)` skips the
filter both when the parameter is absent and when it is the empty
string. -/
def presentStr : Option String → Option String
  | none => none
  | some s => if s.isEmpty then none else some s

/-- Per-value predicates of the six plain filters (index.ts lines
201-223); `doc.category === category` on an undefined field is false. -/
def catPred (v : String) (d : Document) : Bool := d.category == some v

def depPred (v : String) (d : Document) : Bool := d.department == some v

def statPred (v : String) (d : Document) : Bool := d.status == v

def confPred (v : String) (d : Document) : Bool := d.confidentiality == some v

def fromPred (v : Nat) (d : Document) : Bool := decide (v ≤ d.uploadDate)

def toPred (v : Nat) (d : Document) : Bool := decide (d.uploadDate ≤ v)

/-- The successful q predicate: the thrown case excluded. -/
def qPred (s : String) (d : Document) : Bool := matchesQ s.toLower d == some true

/-- One optional string criterion folded into a total predicate: an absent
(or empty) parameter filters nothing. -/
def strCrit (f : String → Document → Bool) (o : Option String) (d : Document) : Bool :=
  match presentStr o with
  | none => true
  | some v => f v d

/-- One optional date criterion folded into a total predicate. -/
def natCrit (f : Nat → Document → Bool) (o : Option Nat) (d : Document) : Bool :=
  match o with
  | none => true
  | some v => f v d

def catStage (c : Criteria) (l : List Document) : List Document :=
  match presentStr c.category with
  | none => l
  | some v => l.filter (catPred v)

def depStage (c : Criteria) (l : List Document) : List Document :=
  match presentStr c.department with
  | none => l
  | some v => l.filter (depPred v)

def statStage (c : Criteria) (l : List Document) : List Document :=
  match presentStr c.status with
  | none => l
  | some v => l.filter (statPred v)

def confStage (c : Criteria) (l : List Document) : List Document :=
  match presentStr c.confidentiality with
  | none => l
  | some v => l.filter (confPred v)

def fromStage (c : Criteria) (l : List Document) : List Document :=
  match c.dateFrom with
  | none => l
  | some v => l.filter (fromPred v)

def toStage (c : Criteria) (l : List Document) : List Document :=
  match c.dateTo with
  | none => l
  | some v => l.filter (toPred v)

/-- GET /api/documents (index.ts lines 187-226): the q filter runs first
and can throw (`none`); the six remaining filters are applied in source
order.  `some r` is the 200 response with body `r`. -/
def listDocuments (c : Criteria) (docs : List Document) : Option (List Document) :=
  match presentStr c.q with
  | none => some (toStage c (fromStage c (confStage c (statStage c (depStage c (catStage c docs))))))
  | some s =>
    match filterSome (matchesQ s.toLower) docs with
    | none => none
    | some d1 =>
      some (toStage c (fromStage c (confStage c (statStage c (depStage c (catStage c d1))))))

/-- The conjunction of all present criteria, shaped to match the nesting
produced by composing the filters. -/
def bigPred (c : Criteria) (d : Document) : Bool :=
  natCrit toPred c.dateTo d && natCrit fromPred c.dateFrom d &&
    strCrit confPred c.confidentiality d && strCrit statPred c.status d &&
    strCrit depPred c.department d && strCrit catPred c.category d &&
    strCrit qPred c.q d

theorem catStage_eq (c : Criteria) (l : List Document) :
    catStage c l = l.filter (fun d => strCrit catPred c.category d) := by
  unfold catStage strCrit
  cases hp : presentStr c.category
  · simp
  · rfl

theorem depStage_eq (c : Criteria) (l : List Document) :
    depStage c l = l.filter (fun d => strCrit depPred c.department d) := by
  unfold depStage strCrit
  cases hp : presentStr c.department
  · simp
  · rfl

theorem statStage_eq (c : Criteria) (l : List Document) :
    statStage c l = l.filter (fun d => strCrit statPred c.status d) := by
  unfold statStage strCrit
  cases hp : presentStr c.status
  · simp
  · rfl

theorem confStage_eq (c : Criteria) (l : List Document) :
    confStage c l = l.filter (fun d => strCrit confPred c.confidentiality d) := by
  unfold confStage strCrit
  cases hp : presentStr c.confidentiality
  · simp
  · rfl

theorem fromStage_eq (c : Criteria) (l : List Document) :
    fromStage c l = l.filter (fun d => natCrit fromPred c.dateFrom d) := by
  unfold fromStage natCrit
  cases hp : c.dateFrom
  · simp
  · rfl

theorem toStage_eq (c : Criteria) (l : List Document) :
    toStage c l = l.filter (fun d => natCrit toPred c.dateTo d) := by
  unfold toStage natCrit
  cases hp : c.dateTo
  · simp
  · rfl

theorem restStages_eq (c : Criteria) (l : List Document) :
    toStage c (fromStage c (confStage c (statStage c (depStage c (catStage c l))))) =
      l.filter (fun d => natCrit toPred c.dateTo d && natCrit fromPred c.dateFrom d &&
        strCrit confPred c.confidentiality d && strCrit statPred c.status d &&
        strCrit depPred c.department d && strCrit catPred c.category d) := by
  rw [catStage_eq, depStage_eq, statStage_eq, confStage_eq, fromStage_eq, toStage_eq,
    List.filter_filter, List.filter_filter, List.filter_filter, List.filter_filter,
    List.filter_filter]

theorem filterSome_eq_some {p : Document → Option Bool} :
    ∀ {l r : List Document}, filterSome p l = some r →
      r = l.filter (fun a => p a == some true) := by
  intro l
  induction l with
  | nil =>
    intro r h
    have h2 : some ([] : List Document) = some r := h
    rw [List.filter_nil]
    exact (Option.some_inj.mp h2).symm
  | cons a l ih =>
    intro r h
    rcases hp : p a with _ | b
    · have hunf : filterSome p (a :: l) =
          match p a with
          | none => none
          | some b => (filterSome p l).map (fun r => if b then a :: r else r) := rfl
      rw [hunf, hp] at h
      exact absurd h (by simp)
    · have hunf : filterSome p (a :: l) =
          match p a with
          | none => none
          | some b => (filterSome p l).map (fun r => if b then a :: r else r) := rfl
      rw [hunf, hp] at h
      rcases hrec : filterSome p l with _ | r2
      · rw [hrec] at h
        exact absurd h (by simp)
      · rw [hrec] at h
        have h3 : some (if b then a :: r2 else r2) = some r := h
        have hr : r = if b then a :: r2 else r2 := (Option.some_inj.mp h3).symm
        rw [hr, ih hrec, List.filter_cons]
        cases b <;> simp [hp]

/-- Characterization of a successful GET /api/documents: the response is
the insertion-ordered sublist of documents satisfying the conjunction of
all present criteria. -/
theorem listDocuments_eq_filter {c : Criteria} {docs r : List Document}
    (h : listDocuments c docs = some r) : r = docs.filter (bigPred c) := by
  unfold listDocuments at h
  rcases hq : presentStr c.q with _ | s
  · rw [hq] at h
    have h2 : some (toStage c (fromStage c (confStage c (statStage c
        (depStage c (catStage c docs)))))) = some r := h
    rw [← Option.some_inj.mp h2, restStages_eq]
    apply List.filter_congr
    intro d _
    simp [bigPred, strCrit, hq]
  · rw [hq] at h
    have h1 : (match filterSome (matchesQ s.toLower) docs with
      | none => none
      | some d1 => some (toStage c (fromStage c (confStage c (statStage c
          (depStage c (catStage c d1))))))) = some r := h
    rcases hf : filterSome (matchesQ s.toLower) docs with _ | d1
    · rw [hf] at h1
      exact absurd h1 (by simp)
    · rw [hf] at h1
      have h2 : some (toStage c (fromStage c (confStage c (statStage c
          (depStage c (catStage c d1)))))) = some r := h1
      rw [← Option.some_inj.mp h2, restStages_eq, filterSome_eq_some hf,
        List.filter_filter]
      apply List.filter_congr
      intro d _
      simp [bigPred, strCrit, hq, qPred]

/-- First-present choice of an optional parameter, used to put two
criterion sets into one query string. -/
def oor {α : Type} : Option α → Option α → Option α
  | some a, _ => some a
  | none, b => b

/-- Two criterion sets combined into one query string. -/
def mergeCriteria (c1 c2 : Criteria) : Criteria :=
  { q := oor c1.q c2.q
    category := oor c1.category c2.category
    department := oor c1.department c2.department
    status := oor c1.status c2.status
    confidentiality := oor c1.confidentiality c2.confidentiality
    dateFrom := oor c1.dateFrom c2.dateFrom
    dateTo := oor c1.dateTo c2.dateTo }

/-- Each parameter is supplied by at most one of the two criterion sets:
"two present criteria" are two different criterion kinds. -/
def disjointCriteria (c1 c2 : Criteria) : Prop :=
  (c1.q = none ∨ c2.q = none) ∧
  (c1.category = none ∨ c2.category = none) ∧
  (c1.department = none ∨ c2.department = none) ∧
  (c1.status = none ∨ c2.status = none) ∧
  (c1.confidentiality = none ∨ c2.confidentiality = none) ∧
  (c1.dateFrom = none ∨ c2.dateFrom = none) ∧
  (c1.dateTo = none ∨ c2.dateTo = none)

theorem strCrit_none (f : String → Document → Bool) (d : Document) :
    strCrit f none d = true := rfl

theorem natCrit_none (f : Nat → Document → Bool) (d : Document) :
    natCrit f none d = true := rfl

theorem strCrit_oor (f : String → Document → Bool) (a b : Option String)
    (hab : a = none ∨ b = none) (d : Document) :
    strCrit f (oor a b) d = (strCrit f a d && strCrit f b d) := by
  rcases hab with rfl | rfl
  · have h : oor (none : Option String) b = b := rfl
    rw [h, strCrit_none, Bool.true_and]
  · have h : oor a (none : Option String) = a := by
      rcases a with _ | v <;> rfl
    rw [h, strCrit_none, Bool.and_true]

theorem natCrit_oor (f : Nat → Document → Bool) (a b : Option Nat)
    (hab : a = none ∨ b = none) (d : Document) :
    natCrit f (oor a b) d = (natCrit f a d && natCrit f b d) := by
  rcases hab with rfl | rfl
  · have h : oor (none : Option Nat) b = b := rfl
    rw [h, natCrit_none, Bool.true_and]
  · have h : oor a (none : Option Nat) = a := by
      rcases a with _ | v <;> rfl
    rw [h, natCrit_none, Bool.and_true]

theorem bigPred_merge {c1 c2 : Criteria} (hdis : disjointCriteria c1 c2)
    (d : Document) :
    bigPred (mergeCriteria c1 c2) d = (bigPred c1 d && bigPred c2 d) := by
  obtain ⟨h1, h2, h3, h4, h5, h6, h7⟩ := hdis
  unfold bigPred
  simp only [mergeCriteria]
  rw [strCrit_oor _ _ _ h1, strCrit_oor _ _ _ h2, strCrit_oor _ _ _ h3,
    strCrit_oor _ _ _ h4, strCrit_oor _ _ _ h5, natCrit_oor _ _ _ h6,
    natCrit_oor _ _ _ h7]
  simp only [Bool.and_assoc]
  simp [Bool.and_comm, Bool.and_left_comm, Bool.and_assoc]

/-- C7: a GET with no query parameters answers the whole repository in
insertion order; every successful GET answers a sublist of the repository
(insertion order preserved); and when two disjoint criterion sets and
their combination all evaluate without throwing, the combined result is
exactly the members of the first result that also belong to the second -
the criteria combine as a logical AND. -/
theorem c7_filter_conjunction :
    (∀ docs, listDocuments emptyCriteria docs = some docs) ∧
    (∀ c docs r, listDocuments c docs = some r → List.Sublist r docs) ∧
    (∀ c1 c2 docs r1 r2 r12, disjointCriteria c1 c2 →
      listDocuments c1 docs = some r1 → listDocuments c2 docs = some r2 →
      listDocuments (mergeCriteria c1 c2) docs = some r12 →
      r12 = r1.filter (fun d => decide (d ∈ r2))) := by
  refine ⟨?_, ?_, ?_⟩
  · intro docs
    rfl
  · intro c docs r h
    rw [listDocuments_eq_filter h]
    exact List.filter_sublist docs
  · intro c1 c2 docs r1 r2 r12 hdis h1 h2 h12
    have e1 := listDocuments_eq_filter h1
    have e2 := listDocuments_eq_filter h2
    have e12 := listDocuments_eq_filter h12
    rw [e12, e1, List.filter_filter]
    apply List.filter_congr
    intro d hd
    rw [bigPred_merge hdis]
    have hmem : (d ∈ r2) ↔ bigPred c2 d = true := by
      rw [e2, List.mem_filter]
      simp [hd]
    cases hb : bigPred c2 d
    · rw [hb] at hmem
      simp [hmem]
    · rw [hb] at hmem
      simp [hmem]

/-- A query selecting only the finance category. -/
def catCrit : Criteria := { emptyCriteria with category := some "finance" }

/-- A query selecting only pending documents. -/
def statCrit : Criteria := { emptyCriteria with status := some "pending" }

/-- A concrete two-document repository: doc A (finance, pending) and doc B
(legal, pending). -/
def exDocs : List Document := [createDocument 100 m0 f0, createDocument 200 m1 f1]

/-- C7 (witness): on the concrete repository, filtering by category
"finance" gives exactly doc A, filtering by status gives both, and the
combined query gives the intersection; the category result is a sublist
of the repository. -/
theorem c7_filter_conjunction_witness :
    List.Sublist [createDocument 100 m0 f0] exDocs ∧
    listDocuments (mergeCriteria catCrit statCrit) exDocs =
      some [createDocument 100 m0 f0] ∧
    [createDocument 100 m0 f0] =
      ([createDocument 100 m0 f0]).filter (fun d => decide (d ∈ exDocs)) := by
  have hsub := c7_filter_conjunction.2.1 catCrit exDocs
    [createDocument 100 m0 f0] rfl
  have hint := c7_filter_conjunction.2.2 catCrit statCrit exDocs
    [createDocument 100 m0 f0] exDocs [createDocument 100 m0 f0]
    (by constructor <;> simp [catCrit, statCrit, emptyCriteria]) rfl rfl rfl
  exact ⟨hsub, rfl, hint⟩

theorem matchesQ_isSome {s : String} {d : Document} (ht : d.title.isSome)
    (hd : d.description.isSome) : (matchesQ s d).isSome := by
  rcases hT : d.title with _ | t
  · rw [hT] at ht; simp at ht
  · rcases hD : d.description with _ | ds
    · rw [hD] at hd; simp at hd
    · unfold matchesQ
      rw [hT, hD]
      by_cases h1 : strIncludes t s
      · simp [h1]
      · by_cases h2 : strIncludes ds s <;> simp [h1, h2]

theorem filterSome_isSome {p : Document → Option Bool} :
    ∀ {l : List Document}, (∀ d ∈ l, (p d).isSome) → (filterSome p l).isSome := by
  intro l
  induction l with
  | nil => intro _; rfl
  | cons a l ih =>
    intro h
    have ha := h a (by simp)
    rcases hp : p a with _ | b
    · rw [hp] at ha; simp at ha
    · have hrest := ih (fun d hd => h d (by simp [hd]))
      rcases hrec : filterSome p l with _ | r
      · rw [hrec] at hrest; simp at hrest
      · have hstep : filterSome p (a :: l) =
            match p a with
            | none => none
            | some b => (filterSome p l).map (fun r => if b then a :: r else r) := rfl
        rw [hstep, hp, hrec]
        rfl

/-- A query string carrying only the free-text parameter q=x. -/
def qOnly : Criteria := { emptyCriteria with q := some "x" }

/-- An upload request whose body carries no title field. -/
def noTitleMeta : UploadMeta := { m0 with title := none }

/-- C10: the q filter is total on repositories whose documents all carry a
title and a description; but document creation does not validate those
fields, and on the reachable state holding a document uploaded without a
title, a q search evaluates `toLowerCase` of an undefined title and the
request fails instead of answering a list. -/
theorem c10_q_filter_crashes_on_missing_title :
    (∀ c docs, (∀ d ∈ docs, d.title.isSome ∧ d.description.isSome) →
      (listDocuments c docs).isSome) ∧
    listDocuments qOnly [createDocument 100 noTitleMeta f0] = none := by
  constructor
  · intro c docs hwf
    unfold listDocuments
    rcases hq : presentStr c.q with _ | s
    · rfl
    · have hall : ∀ d ∈ docs, (matchesQ s.toLower d).isSome := by
        intro d hd
        exact matchesQ_isSome (hwf d hd).1 (hwf d hd).2
      have hsome := filterSome_isSome hall
      rcases hf : filterSome (matchesQ s.toLower) docs with _ | d1
      · rw [hf] at hsome; simp at hsome
      · show (match filterSome (matchesQ s.toLower) docs with
          | none => none
          | some d1 => some (toStage c (fromStage c (confStage c (statStage c
              (depStage c (catStage c d1))))))).isSome = true
        rw [hf]
        rfl
  · rfl

/-- C10 (witness): on a repository whose single document carries both
fields, a category query succeeds. -/
theorem c10_q_filter_crashes_on_missing_title_witness :
    (listDocuments catCrit [createDocument 100 m0 f0]).isSome := by
  exact c10_q_filter_crashes_on_missing_title.1 catCrit
    [createDocument 100 m0 f0] (by decide)

theorem deleteFirst_of_find? {f : Document → Bool} :
    ∀ {l : List Document} {d : Document}, l.find? f = some d →
      ∃ l2, deleteFirst f l = some (l2, d) := by
  intro l
  induction l with
  | nil => intro d h; simp at h
  | cons a l ih =>
    intro d h
    by_cases ha : f a
    · rw [List.find?_cons_of_pos _ ha] at h
      have hda : d = a := (Option.some_inj.mp h).symm
      subst hda
      exact ⟨l, by simp [deleteFirst, ha]⟩
    · rw [List.find?_cons_of_neg _ ha] at h
      obtain ⟨l2, h2⟩ := ih h
      exact ⟨a :: l2, by simp [deleteFirst, ha, h2]⟩

/-- C9: deleting an existing document (the repository invariant of unique
ids in force) always answers 204 and removes the record: the id resolves
to nothing afterwards and no successful GET /api/documents response can
contain it - and the answer and the resulting repository are the same
whether or not the physical file deletion fails, since that failure is
only logged. -/
theorem c9_delete_removes_record (docs : List Document) (id : String) (b : Bool)
    (dfound : Document) (hid : (docs.map (fun d => d.id)).Nodup)
    (hex : getDocument docs id = some dfound) :
    (deleteDocument docs id b).1 = .noContent ∧
    getDocument (deleteDocument docs id b).2.1 id = none ∧
    (∀ c r, listDocuments c (deleteDocument docs id b).2.1 = some r →
      ∀ x ∈ r, x.id ≠ id) ∧
    (deleteDocument docs id b).1 = (deleteDocument docs id true).1 ∧
    (deleteDocument docs id b).2.1 = (deleteDocument docs id true).2.1 := by
  obtain ⟨l2, hdel⟩ := deleteFirst_of_find? hex
  have hresp : deleteDocument docs id b = (.noContent, l2, b) := by
    unfold deleteDocument
    rw [hdel]
  have hresp2 : deleteDocument docs id true = (.noContent, l2, true) := by
    unfold deleteDocument
    rw [hdel]
  obtain ⟨pre, dd, post, hl, hpre, hdd, hud, hl2⟩ := deleteFirst_eq_some hdel
  have hdid : dd.id = id := by simpa using hdd
  have hnone : ∀ x ∈ l2, (x.id == id) = false := by
    intro x hx
    by_contra hcon
    rw [Bool.not_eq_false] at hcon
    have hxid : x.id = id := by simpa using hcon
    have hmap : ((pre ++ dd :: post).map (fun d => d.id)).Nodup := by
      rw [← hl]; exact hid
    rw [List.map_append, List.map_cons] at hmap
    have hmid := List.nodup_middle.mp hmap
    have hni := (List.nodup_cons.mp hmid).1
    have hxin : x ∈ pre ++ post := by rw [← hl2]; exact hx
    have hmem2 : dd.id ∈ (pre ++ post).map (fun d => d.id) := by
      rw [hdid, ← hxid]
      exact List.mem_map_of_mem _ hxin
    rw [List.map_append] at hmem2
    exact hni hmem2
  refine ⟨by rw [hresp], ?_, ?_, by rw [hresp, hresp2], by rw [hresp, hresp2]⟩
  · rw [hresp]
    unfold getDocument
    exact List.find?_eq_none.mpr (fun x hx => by simp [hnone x hx])
  · intro c r h x hxr
    rw [hresp] at h
    have hr := listDocuments_eq_filter h
    rw [hr] at hxr
    have hxl2 : x ∈ l2 := (List.mem_filter.mp hxr).1
    have := hnone x hxl2
    intro hcontra
    rw [hcontra] at this
    simp at this

/-- C9 (witness): deleting doc A from the concrete two-document repository
answers 204 even when the blob deletion fails, and A is gone. -/
theorem c9_delete_removes_record_witness :
    (deleteDocument exDocs "DOC-100" true).1 = .noContent ∧
    getDocument (deleteDocument exDocs "DOC-100" true).2.1 "DOC-100" = none ∧
    (deleteDocument exDocs "DOC-100" true).2.1 =
      (deleteDocument exDocs "DOC-100" false).2.1 := by
  have h := c9_delete_removes_record exDocs "DOC-100" true
    (createDocument 100 m0 f0) (by decide) rfl
  have h2 := c9_delete_removes_record exDocs "DOC-100" false
    (createDocument 100 m0 f0) (by decide) rfl
  exact ⟨h.1, h.2.1, by rw [h.2.2.2.2, h2.2.2.2.2]⟩

/-- The aggregate returned by GET /api/stats (index.ts lines 332-337).
The storage figure in the response is a formatted megabyte string. -/
structure StatsResp where
  totalDocuments : Nat
  pendingApprovals : Nat
  storageUsed : String
  activeUsers : Nat
deriving DecidableEq

/-- Models `(bytes / 1024 / 1024).toFixed(2)` of index.ts line 327.  For
byte counts below 2^53 the double `bytes / 1024 / 1024` is exact (two
divisions by powers of two), and `toFixed(2)` picks the integer n closest
to `100 * value`, the larger n on ties: round-half-up of
`100 * bytes / 2^20` over the rationals. -/
def toFixed2MB (bytes : Nat) : String :=
  let n := (200 * bytes + 1048576) / 2097152
  let frac := n % 100
  toString (n / 100) ++ "." ++ (if frac < 10 then "0" else "") ++ toString frac

/-- GET /api/stats (index.ts lines 323-338): document count, pending
count, the summed `fileSize` formatted as megabytes, and the hardcoded
active-user placeholder. -/
def stats (docs : List Document) : StatsResp :=
  { totalDocuments := docs.length
    pendingApprovals := (docs.filter (fun d => d.status == "pending")).length
    storageUsed := toFixed2MB (docs.foldl (fun acc d => acc + d.fileSize) 0) ++ " MB"
    activeUsers := 5 }

/-- C4 (counterexample): after uploading documents of sizes 1000 and 2000
the response carries `storageUsed = "0.00 MB"` - a megabyte string - and
no `storageUsedBytes` field at all, although the summed sizes are 3000;
the claimed `Stats().storageUsedBytes == 3000` fails on the response. -/
theorem c4_counterexample_storage_is_mb_string :
    (stats exDocs).storageUsed = "0.00 MB" ∧
    (exDocs.map (fun d => d.fileSize)).sum = 3000 ∧
    (stats exDocs).storageUsed ≠ toString (3000 : Nat) := by
  refine ⟨rfl, rfl, ?_⟩
  decide

/-- C4 (amended): the stats response has `totalDocuments` equal to the
repository size, `pendingApprovals` equal to the number of documents with
status pending, `activeUsers` equal to the placeholder 5, and
`storageUsed` equal to the sum of the `fileSize` fields formatted as a
two-decimal megabyte string - the byte sum itself is not returned. -/
theorem c4_stats_amended (docs : List Document) :
    (stats docs).totalDocuments = docs.length ∧
    (stats docs).pendingApprovals = docs.countP (fun d => d.status == "pending") ∧
    (stats docs).storageUsed =
      toFixed2MB ((docs.map (fun d => d.fileSize)).sum) ++ " MB" ∧
    (stats docs).activeUsers = 5 := by
  refine ⟨rfl, ?_, ?_, rfl⟩
  · show (docs.filter (fun d => d.status == "pending")).length = _
    exact (List.countP_eq_length_filter _ _).symm
  · show toFixed2MB (docs.foldl (fun acc d => acc + d.fileSize) 0) ++ " MB" = _
    have hfold : ∀ (l : List Document) (a : Nat),
        l.foldl (fun acc d => acc + d.fileSize) a = a + (l.map (fun d => d.fileSize)).sum := by
      intro l
      induction l with
      | nil => intro a; simp
      | cons x l ih =>
        intro a
        show l.foldl (fun acc d => acc + d.fileSize) (a + x.fileSize) = _
        rw [ih (a + x.fileSize), List.map_cons, List.sum_cons]
        omega
    rw [hfold docs 0, Nat.zero_add]

/-- One element of the GET /api/activities feed: a history entry spread
together with the owning document id and title (index.ts lines 342-348). -/
structure Activity where
  version : Option Nat
  date : Option Nat
  user : String
  changes : String
  documentId : String
  documentTitle : Option String
deriving DecidableEq

/-- `documents.flatMap(doc => doc.history.map(entry => ({...entry,
documentId, documentTitle})))` (index.ts lines 342-348). -/
def flattenActivities (docs : List Document) : List Activity :=
  docs.flatMap (fun d => d.history.map (fun e =>
    { version := e.version, date := e.date, user := e.user, changes := e.changes
      documentId := d.id, documentTitle := d.title }))

/-- The sort comparator of index.ts line 350:
`(a, b) => new Date(b.date).getTime() - new Date(a.date).getTime()`.
An entry without a date field gives `new Date(undefined).getTime() = NaN`,
and the ECMAScript SortCompare treats a NaN comparator result as +0, so
such an entry compares equal to everything. -/
def actCompare (a b : Activity) : Int :=
  match a.date, b.date with
  | some ta, some tb => (tb : Int) - (ta : Int)
  | _, _ => 0

/-- Stable insertion modelling `Array.prototype.sort` (ECMAScript requires
a stable sort; with this comparator the concrete inputs below are chains
of equal comparisons, on which every stable sort leaves the order
unchanged). -/
def insertAct (x : Activity) : List Activity → List Activity
  | [] => [x]
  | y :: l => if actCompare x y ≤ 0 then x :: y :: l else y :: insertAct x l

def sortActivities : List Activity → List Activity
  | [] => []
  | x :: l => insertAct x (sortActivities l)

/-- GET /api/activities (index.ts lines 341-355): flatten every history,
sort with the date comparator, answer the first 5. -/
def recentActivities (docs : List Document) : List Activity :=
  (sortActivities (flattenActivities docs)).take 5

/-- A PUT body that changes only the title. -/
def titlePayload : UpdatePayload := { emptyPayload with title := some "New title" }

/-- Doc A: uploaded at 100, title updated at 200. -/
def exDocA : Document := applyUpdate 200 (createDocument 100 m0 f0) titlePayload

/-- Doc B: uploaded at 300, title updated at 400. -/
def exDocB : Document := applyUpdate 400 (createDocument 300 m1 f1) titlePayload

/-- C5 (code bug, evaluated at the failing input): initial-upload history
entries are written without a date field, so they compare equal to every
entry and the feed is NOT sorted by timestamp descending: with docs A and
B both updated, the entry dated 200 precedes the entry dated 400 in the
response.  The per-document scenario (the "Metadata updated" entry of a
document listed before its "Initial upload" entry) still holds, but only
through sort stability. -/
theorem c5_activities_not_time_sorted :
    (recentActivities [exDocA, exDocB]).map (fun a => a.date) =
      [some 200, none, some 400, none] ∧
    (recentActivities [exDocA]).map (fun a => a.changes) =
      ["Metadata updated", "Initial upload"] := by
  constructor <;> rfl
